import Mathlib

/-!
Verification of the finite_dino_bot comment-processing pipeline.

The Python sources `reddit_bot.py` and `finite_dino_bot.py` are shallowly
embedded below.  The processed-comment cache (`collections.deque` with
`maxlen = CACHE_SIZE`) is an oldest-first `List String`; file contents are
`List Char`; the generator `retrieve_comments` is a recursive function that
threads the cache and records the cache state at each yield; the `main`
loop with its `try/except APIException` is a function from an explicit
environment of remote outcomes to a cycle result.
-/

/-- Keep the last `n` elements of a list (oldest first).  This is both the
behaviour of `collections.deque(xs, maxlen = n)` construction and the
eviction discipline of `deque.append` at capacity. -/
def takeRightN {α : Type} (n : Nat) (l : List α) : List α :=
  l.drop (l.length - n)

/-- `deque.append` on a deque with `maxlen = n`: add on the right, evict the
single oldest element on the left when the capacity is exceeded.
Source: `self.processed_comments.append(comment.id)` (reddit_bot.py:124). -/
def cacheAppend (n : Nat) (cache : List String) (x : String) : List String :=
  takeRightN n (cache ++ [x])

/-- A whole sequence of admissions into the bounded cache. -/
def admitAll (n : Nat) (cache : List String) (xs : List String) : List String :=
  xs.foldl (cacheAppend n) cache

theorem takeRightN_length_le {α : Type} (n : Nat) (l : List α) :
    (takeRightN n l).length ≤ n := by
  simp [takeRightN]
  omega

theorem takeRightN_of_length_le {α : Type} (n : Nat) (l : List α)
    (h : l.length ≤ n) : takeRightN n l = l := by
  unfold takeRightN
  have : l.length - n = 0 := by omega
  simp [this]

theorem takeRightN_append_left {α : Type} (n : Nat) (l xs : List α) :
    takeRightN n (takeRightN n l ++ xs) = takeRightN n (l ++ xs) := by
  unfold takeRightN
  rw [show l.drop (l.length - n) ++ xs = (l ++ xs).drop (l.length - n) from
    (List.drop_append_of_le_length (Nat.sub_le _ _)).symm]
  rw [List.drop_drop]
  congr 1
  simp only [List.length_drop, List.length_append]
  omega

theorem admitAll_eq_takeRightN (n : Nat) (xs : List String) :
    ∀ cache : List String, cache.length ≤ n →
      admitAll n cache xs = takeRightN n (cache ++ xs) := by
  induction xs with
  | nil =>
      intro cache h
      simpa [admitAll] using (takeRightN_of_length_le n cache h).symm
  | cons x xs ih =>
      intro cache h
      have h2 : (cacheAppend n cache x).length ≤ n :=
        takeRightN_length_le n (cache ++ [x])
      calc admitAll n cache (x :: xs)
          = admitAll n (cacheAppend n cache x) xs := rfl
        _ = takeRightN n (cacheAppend n cache x ++ xs) := ih _ h2
        _ = takeRightN n ((cache ++ [x]) ++ xs) :=
            takeRightN_append_left n (cache ++ [x]) xs
        _ = takeRightN n (cache ++ x :: xs) := by simp

/-- Claim C2: for every sequence of admissions into the capacity-`n`
processed-comments cache starting empty, the cache size stays `≤ n` after
every prefix of the admissions, and the cache contents are exactly the
last `n` ids admitted, in admission order (FIFO eviction of the oldest;
an admission never moves an existing entry, it only appends on the right
and drops on the left). -/
theorem cache_bounded_fifo (n : Nat) (xs : List String) (k : Nat) :
    (admitAll n [] (xs.take k)).length ≤ n ∧
      admitAll n [] xs = takeRightN n xs := by
  constructor
  · rw [admitAll_eq_takeRightN n _ [] (by simp)]
    simpa using takeRightN_length_le n (xs.take k)
  · simpa using admitAll_eq_takeRightN n xs [] (by simp)

/-- Python str.split on a single newline, over the character-list model of
a string: the empty string splits to one empty entry, and a trailing
newline yields a trailing empty entry, exactly as in Python. -/
def splitNl : List Char → List (List Char)
  | [] => [[]]
  | c :: rest =>
      if c = '\n' then [] :: splitNl rest
      else
        match splitNl rest with
        | [] => [[c]]
        | p :: ps => (c :: p) :: ps

/-- The newline-separated file layout: first entry bare, each later entry
preceded by a single newline, no trailing newline. -/
def joinNl : List (List Char) → List Char
  | [] => []
  | [x] => x
  | x :: xs => x ++ '\n' :: joinNl xs

/-- write_cache (reddit_bot.py:196-224): open the file for writing (which
truncates it), pop the oldest entry off the deque and write it, then write
a newline followed by each remaining entry, leaving no trailing newline.
On an empty deque the popleft raises IndexError, which is caught after the
truncation: the file stays empty and the deque is untouched.  The result
is (file content, the deque as the call leaves it). -/
def write_cache (memCache : List String) : List Char × List String :=
  match memCache with
  | [] => ([], [])
  | x :: xs =>
      (xs.foldl (fun acc entry => acc ++ '\n' :: entry.toList) x.toList, xs)

/-- read_cache (reddit_bot.py:159-194), existing-file path: read the whole
file, split its contents on newlines, and build a deque bounded by
CACHE_SIZE, which keeps only the last n entries. -/
def read_cache (n : Nat) (content : List Char) : List String :=
  takeRightN n ((splitNl content).map (fun l => String.mk l))

theorem splitNl_no_newline (x : List Char) (h : '\n' ∉ x) :
    splitNl x = [x] := by
  induction x with
  | nil => rfl
  | cons c rest ih =>
      have hc : c ≠ '\n' := fun hcn => h (hcn ▸ List.mem_cons_self c rest)
      have hrest : '\n' ∉ rest := fun hr => h (List.mem_cons_of_mem c hr)
      simp [splitNl, hc, ih hrest]

theorem splitNl_append (x t : List Char) (h : '\n' ∉ x) :
    splitNl (x ++ '\n' :: t) = x :: splitNl t := by
  induction x with
  | nil => simp [splitNl]
  | cons c rest ih =>
      have hc : c ≠ '\n' := fun hcn => h (hcn ▸ List.mem_cons_self c rest)
      have hrest : '\n' ∉ rest := fun hr => h (List.mem_cons_of_mem c hr)
      simp [splitNl, hc, ih hrest]

theorem splitNl_joinNl (ls : List (List Char)) (hne : ls ≠ [])
    (h : ∀ x ∈ ls, '\n' ∉ x) : splitNl (joinNl ls) = ls := by
  induction ls with
  | nil => exact absurd rfl hne
  | cons x xs ih =>
      match xs with
      | [] => exact splitNl_no_newline x (h x (List.mem_cons_self x []))
      | y :: ys =>
          have hx : '\n' ∉ x := h x (List.mem_cons_self x (y :: ys))
          have hrest : ∀ z ∈ y :: ys, '\n' ∉ z :=
            fun z hz => h z (List.mem_cons_of_mem x hz)
          show splitNl (x ++ '\n' :: joinNl (y :: ys)) = x :: y :: ys
          rw [splitNl_append x _ hx, ih (by simp) hrest]

theorem joinNl_foldl (ys : List (List Char)) :
    ∀ acc : List Char,
      ys.foldl (fun a e => a ++ '\n' :: e) acc = joinNl (acc :: ys) := by
  induction ys with
  | nil => intro acc; rfl
  | cons y ys ih =>
      intro acc
      rw [List.foldl_cons, ih (acc ++ '\n' :: y)]
      match ys with
      | [] => simp [joinNl]
      | z :: zs => simp [joinNl]

theorem write_cache_content (c : List String) (hne : c ≠ []) :
    (write_cache c).1 = joinNl (c.map String.toList) := by
  match c with
  | [] => exact absurd rfl hne
  | x :: xs =>
      show xs.foldl (fun acc entry => acc ++ '\n' :: entry.toList) x.toList
          = joinNl ((x :: xs).map String.toList)
      rw [show xs.foldl (fun acc entry => acc ++ '\n' :: entry.toList)
            x.toList
          = (xs.map String.toList).foldl (fun a e => a ++ '\n' :: e)
            x.toList from
          (List.foldl_map String.toList (fun a e => a ++ '\n' :: e)
            xs x.toList).symm]
      rw [joinNl_foldl]
      simp

theorem mk_toList (s : String) : String.mk s.toList = s := rfl

/-- Claim C3 counterexample: persist-then-load of the EMPTY cache does not
give back the empty cache.  write_cache truncates the file and, on the
IndexError from popping the empty deque, leaves it empty; read_cache then
splits the empty content into one empty entry.  The loaded cache is [""],
a spurious empty entry, contradicting the claim for the empty cache. -/
theorem empty_cache_roundtrip_spurious :
    read_cache 2 (write_cache []).1 = [""] ∧ [""] ≠ ([] : List String) := by
  exact ⟨rfl, by simp⟩

/-- Claim C3 (amended): for every NON-empty cache of at most n
newline-free entries, write_cache followed by read_cache restores the
cache with identical membership and order and no spurious empty trailing
entry; for the empty cache the round trip instead produces a single empty
entry.  In particular, for capacity 2, admitting "a", "b", "c" leaves
membership ["b", "c"] and persists exactly "b\nc" with no trailing
newline. -/
theorem cache_roundtrip (n : Nat) (c : List String)
    (hne : c ≠ []) (hlen : c.length ≤ n)
    (hnl : ∀ s ∈ c, '\n' ∉ s.toList) :
    read_cache n (write_cache c).1 = c ∧
      admitAll 2 [] ["a", "b", "c"] = ["b", "c"] ∧
      (write_cache (admitAll 2 [] ["a", "b", "c"])).1 = "b\nc".toList := by
  refine ⟨?_, by decide, by decide⟩
  rw [write_cache_content c hne]
  unfold read_cache
  rw [splitNl_joinNl (c.map String.toList) (by simpa using hne)
    (by intro x hx
        obtain ⟨s, hs, rfl⟩ := List.mem_map.1 hx
        exact hnl s hs)]
  rw [List.map_map]
  have : (String.mk ∘ String.toList) = id := funext fun s => mk_toList s
  rw [this, List.map_id]
  exact takeRightN_of_length_le n c hlen

/-- Claim C3 witness: round trip at capacity 2 of the concrete cache
["b", "c"]. -/
theorem cache_roundtrip_witness :
    read_cache 2 (write_cache ["b", "c"]).1 = ["b", "c"] ∧
      admitAll 2 [] ["a", "b", "c"] = ["b", "c"] ∧
      (write_cache (admitAll 2 [] ["a", "b", "c"])).1 = "b\nc".toList :=
  cache_roundtrip 2 ["b", "c"] (by decide) (by decide) (by decide)

/-- Claim C10: write_cache mutates the deque it is handed: for every
non-empty cache, the file receives every entry oldest first
(newline-separated), while the in-memory deque has lost its oldest entry
via popleft and now holds exactly the remaining entries, so file and
memory disagree after a persist. -/
theorem write_cache_mutates (c : List String) (hne : c ≠ []) :
    (write_cache c).1 = joinNl (c.map String.toList) ∧
      (write_cache c).2 = c.tail ∧ (write_cache c).2 ≠ c := by
  refine ⟨write_cache_content c hne, ?_, ?_⟩
  · match c with
    | x :: xs => rfl
  · match c with
    | x :: xs =>
        intro h
        have h2 : xs = x :: xs := h
        have h3 := congrArg List.length h2
        simp at h3

/-- Claim C10 witness: persisting the concrete cache ["a", "b"] writes
"a\nb" and leaves only ["b"] in memory. -/
theorem write_cache_mutates_witness :
    (write_cache ["a", "b"]).1 = joinNl (["a", "b"].map String.toList) ∧
      (write_cache ["a", "b"]).2 = ["a", "b"].tail ∧
      (write_cache ["a", "b"]).2 ≠ ["a", "b"] :=
  write_cache_mutates ["a", "b"] (by decide)

/-- ASCII reading of the regex word class of the capture pattern:
letters, digits, underscore. -/
def isWordChar (c : Char) : Bool := c.isAlphanum || c = '_'

/-- The bracket class of the capture group in the compiled pattern
(reddit_bot.py:60): a word character or a space. -/
def isCaptureChar (c : Char) : Bool := isWordChar c || c = ' '

/-- Case-insensitive character comparison, as the pattern is compiled
with the IGNORECASE flag. -/
def charIEq (a b : Char) : Bool := a.toLower = b.toLower

/-- Case-insensitive literal match of the keyword as a prefix of the
text; returns the remaining text on success. -/
def matchLiteral : List Char → List Char → Option (List Char)
  | [], s => some s
  | _ :: _, [] => none
  | k :: ks, c :: cs => if charIEq k c then matchLiteral ks cs else none

/-- Try the whole pattern (the keyword literal, a space, then a greedy
non-empty run of word characters and spaces) at the current position; on
success return the capture group, i.e. that greedy run. -/
def matchKeywordAt (kw s : List Char) : Option (List Char) :=
  match matchLiteral kw s with
  | none => none
  | some [] => none
  | some (c :: rest) =>
      if c = ' ' then
        if rest.takeWhile isCaptureChar = [] then none
        else some (rest.takeWhile isCaptureChar)
      else none

/-- re.search of the compiled keyword pattern (reddit_bot.py:60): scan
left to right and return the capture group of the leftmost position where
the whole pattern matches.  This is the value of query.group(1) consumed
at reddit_bot.py:125. -/
def keywordSearch (kw : List Char) : List Char → Option (List Char)
  | [] => matchKeywordAt kw []
  | c :: cs =>
      match matchKeywordAt kw (c :: cs) with
      | some cap => some cap
      | none => keywordSearch kw cs

theorem matchKeywordAt_spec (kw s cap : List Char)
    (h : matchKeywordAt kw s = some cap) :
    cap ≠ [] ∧ ∀ c ∈ cap, isCaptureChar c = true := by
  unfold matchKeywordAt at h
  split at h
  · exact absurd h (by simp)
  · exact absurd h (by simp)
  · rename_i rest c rest2 heq
    split at h
    · split at h
      · exact absurd h (by simp)
      · rename_i hcap
        obtain rfl : rest2.takeWhile isCaptureChar = cap := by
          injection h
        exact ⟨hcap, fun c hc => List.mem_takeWhile_imp hc⟩
    · exact absurd h (by simp)

theorem keywordSearch_spec (kw : List Char) :
    ∀ s cap : List Char, keywordSearch kw s = some cap →
      cap ≠ [] ∧ ∀ c ∈ cap, isCaptureChar c = true := by
  intro s
  induction s with
  | nil => intro cap h; exact matchKeywordAt_spec kw [] cap h
  | cons c cs ih =>
      intro cap h
      unfold keywordSearch at h
      split at h
      · rename_i heq
        injection h with h2
        exact h2 ▸ matchKeywordAt_spec kw (c :: cs) _ heq
      · exact ih cap h

/-- Claim C4 counterexample: the capture class of the compiled pattern
includes the space, so the greedy group runs past the first word: with
trigger "!define", the body "please !define serendipity now" extracts
"serendipity now", not "serendipity".  Moreover no token boundary is
required before the trigger: with trigger "define" the body
"undefine thing" matches inside the longer word "undefine". -/
theorem keyword_extract_counterexample :
    (keywordSearch "!define".toList "please !define serendipity now".toList
        = some "serendipity now".toList ∧
      "serendipity now".toList ≠ "serendipity".toList) ∧
    keywordSearch "define".toList "undefine thing".toList
        = some "thing".toList := by
  exact ⟨⟨by decide, by decide⟩, by decide⟩

/-- Claim C4 (amended): keyword extraction is a case-insensitive search
for the trigger phrase followed by a space and a non-empty greedy run of
word characters AND spaces; it returns that captured run unchanged (no
trimming), or no match.  No token boundary is required before the
trigger; the configured trigger "!define" merely cannot occur inside a
longer word because "!" is not a word character.  With trigger "!define",
body "please !define serendipity now" extracts "serendipity now", and
body "undefined thing" yields no match. -/
theorem keyword_extract :
    keywordSearch "!define".toList "please !define serendipity now".toList
        = some "serendipity now".toList ∧
      keywordSearch "!define".toList "undefined thing".toList = none ∧
      keywordSearch "!define".toList "PLEASE !DEFINE Serendipity now".toList
        = some "Serendipity now".toList ∧
      (∀ s cap : List Char, keywordSearch "!define".toList s = some cap →
        cap ≠ [] ∧ ∀ c ∈ cap, isCaptureChar c = true) := by
  exact ⟨by decide, by decide, by decide,
    fun s cap h => keywordSearch_spec "!define".toList s cap h⟩

/-- Claim C4 witness: the general capture-shape conjunct instantiated on
the concrete body "x !define cat dog". -/
theorem keyword_extract_witness :
    "cat dog".toList ≠ [] ∧
      ∀ c ∈ "cat dog".toList, isCaptureChar c = true :=
  keyword_extract.2.2.2 "x !define cat dog".toList
    "cat dog".toList (by decide)

/-- The fields of a praw comment that the bot reads. -/
structure RComment where
  id : String
  author : String
  body : String
deriving DecidableEq

/-- One yielded item of the retrieve_comments generator
(reddit_bot.py:116-125): the comment, query.group(1), and the cache state
at the instant of the yield (the append at line 124 runs first, so the
snapshot already holds the id even if the consumer later fails). -/
structure Yielded where
  comment : RComment
  query : String
  cacheAtYield : List String
deriving DecidableEq

/-- retrieve_comments (reddit_bot.py:101-133) over a listing: for each
comment whose author is not the bot and whose id is not in the processed
cache, search the lowercased body with the keyword pattern; on a match,
append the id to the bounded cache and then yield.  Returns the yielded
items together with the final cache. -/
def retrieveComments (n : Nat) (uname kw : String) :
    List RComment → List String → List Yielded × List String
  | [], cache => ([], cache)
  | c :: rest, cache =>
      if c.author ≠ uname ∧ c.id ∉ cache then
        match keywordSearch kw.toList (c.body.toList.map Char.toLower) with
        | some q =>
            let out := retrieveComments n uname kw rest
              (cacheAppend n cache c.id)
            (⟨c, String.mk q, cacheAppend n cache c.id⟩ :: out.1, out.2)
        | none => retrieveComments n uname kw rest cache
      else retrieveComments n uname kw rest cache

theorem mem_cacheAppend_self (n : Nat) (hn : 0 < n) (cache : List String)
    (x : String) : x ∈ cacheAppend n cache x := by
  unfold cacheAppend takeRightN
  rw [List.drop_append_of_le_length
    (by simp only [List.length_append, List.length_cons, List.length_nil]
        omega)]
  simp

theorem retrieveComments_skip (n : Nat) (uname kw : String) (c : RComment)
    (rest : List RComment) (cache : List String) (hmem : c.id ∈ cache) :
    retrieveComments n uname kw (c :: rest) cache
      = retrieveComments n uname kw rest cache := by
  have h : ¬(c.author ≠ uname ∧ c.id ∉ cache) := fun h => h.2 hmem
  conv_lhs => rw [retrieveComments]
  rw [if_neg h]

theorem retrieveComments_admitted (n : Nat) (hn : 0 < n)
    (uname kw : String) :
    ∀ (comments : List RComment) (cache : List String),
      ∀ y ∈ (retrieveComments n uname kw comments cache).1,
        y.comment.id ∈ y.cacheAtYield := by
  intro comments
  induction comments with
  | nil => intro cache y hy; simp [retrieveComments] at hy
  | cons c rest ih =>
      intro cache y hy
      rw [retrieveComments] at hy
      split at hy
      · split at hy
        · rename_i hcond q hq
          simp only [List.mem_cons] at hy
          cases hy with
          | inl h =>
              subst h
              exact mem_cacheAppend_self n hn cache c.id
          | inr h => exact ih _ y h
        · exact ih _ y hy
      · exact ih _ y hy

/-- Claim C1: a comment whose id is already a member of the processed
cache at the time it is examined is skipped outright, in this and every
later poll that starts from a cache still holding the id (the yielded
items and the cache are exactly as if the comment were absent); and every
item the generator does yield carries a cache snapshot, taken at the
instant of the yield, that already contains the comment's id — the append
at reddit_bot.py:124 precedes the yield at line 125, so the id stays
admitted even if the consumer's lookup or reply step then fails. -/
theorem dedup_never_reyields (n : Nat) (uname kw : String)
    (c : RComment) (rest comments : List RComment) (cache : List String)
    (hn : 0 < n) :
    (c.id ∈ cache →
      retrieveComments n uname kw (c :: rest) cache
        = retrieveComments n uname kw rest cache) ∧
    ∀ y ∈ (retrieveComments n uname kw comments cache).1,
      y.comment.id ∈ y.cacheAtYield :=
  ⟨fun hmem => retrieveComments_skip n uname kw c rest cache hmem,
   retrieveComments_admitted n hn uname kw comments cache⟩

/-- Claim C1 witness: with capacity 2, a comment with the already-cached
id "c1" is skipped, and the item yielded for the fresh comment "c2"
carries a snapshot that contains "c2". -/
theorem dedup_never_reyields_witness :
    retrieveComments 2 "bot" "!define"
        [⟨"c1", "alice", "!define cat"⟩] ["c1"]
      = retrieveComments 2 "bot" "!define" [] ["c1"] ∧
    (⟨⟨"c2", "alice", "!define cat"⟩, "cat", ["c2"]⟩ : Yielded).comment.id
      ∈ (⟨⟨"c2", "alice", "!define cat"⟩, "cat", ["c2"]⟩
          : Yielded).cacheAtYield :=
  ⟨(dedup_never_reyields 2 "bot" "!define" ⟨"c1", "alice", "!define cat"⟩
      [] [] ["c1"] (by decide)).1 (by decide),
   (dedup_never_reyields 2 "bot" "!define" ⟨"c1", "alice", "!define cat"⟩
      [] [⟨"c2", "alice", "!define cat"⟩] [] (by decide)).2
      ⟨⟨"c2", "alice", "!define cat"⟩, "cat", ["c2"]⟩ (by decide)⟩

theorem retrieveComments_not_self (n : Nat) (uname kw : String) :
    ∀ (comments : List RComment) (cache : List String),
      ∀ y ∈ (retrieveComments n uname kw comments cache).1,
        y.comment.author ≠ uname := by
  intro comments
  induction comments with
  | nil => intro cache y hy; simp [retrieveComments] at hy
  | cons c rest ih =>
      intro cache y hy
      rw [retrieveComments] at hy
      by_cases hcond : c.author ≠ uname ∧ c.id ∉ cache
      · rw [if_pos hcond] at hy
        split at hy
        · simp only [List.mem_cons] at hy
          cases hy with
          | inl h => exact h ▸ hcond.1
          | inr h => exact ih _ y h
        · exact ih _ y hy
      · rw [if_neg hcond] at hy
        exact ih _ y hy

/-- The exception taxonomy visible to the bot's loop. -/
inductive Exc
  | apiException
  | attributeError
  | httpError
  | otherError
deriving DecidableEq

/-- submit_comment (reddit_bot.py:135-157): the reply call is made only
when the target's author differs from the bot's username; when the
target is the bot's own comment nothing is posted and None is returned.
replyOutcome is what the remote target.reply call would do: raise (the
APIException is caught, reported and re-raised; nothing else is caught)
or succeed, in which case the posted reply is returned. -/
def submit_comment (uname targetAuthor reply : String)
    (replyOutcome : Option Exc) : Except Exc (Option String) :=
  if targetAuthor ≠ uname then
    match replyOutcome with
    | some e => .error e
    | none => .ok (some reply)
  else .ok none

/-- Claim C8: a comment authored by the bot's own identity is never
yielded as a pending item, whatever its body; and submit_comment
independently refuses to post when the reply target's author is the bot
itself, so the bot never replies to its own comment even if such an item
reached the submission step. -/
theorem no_self_reply (n : Nat) (uname kw : String)
    (comments : List RComment) (cache : List String) :
    (∀ y ∈ (retrieveComments n uname kw comments cache).1,
      y.comment.author ≠ uname) ∧
    ∀ (reply : String) (replyOutcome : Option Exc),
      submit_comment uname uname reply replyOutcome = .ok none := by
  refine ⟨retrieveComments_not_self n uname kw comments cache, ?_⟩
  intro reply replyOutcome
  simp [submit_comment]

/-- Claim C8 witness: on a concrete listing, the yielded item's author is
not the bot, and a self-targeted submission posts nothing. -/
theorem no_self_reply_witness :
    ("alice" : String) ≠ "bot" ∧
      submit_comment "bot" "bot" "hi" none = .ok none :=
  ⟨(no_self_reply 2 "bot" "!define"
      [⟨"c2", "alice", "!define cat"⟩] []).1
      ⟨⟨"c2", "alice", "!define cat"⟩, "cat", ["c2"]⟩ (by decide),
   (no_self_reply 2 "bot" "!define" [] []).2 "hi" none⟩

/-- Exact literal match (Python str.replace is case-sensitive); returns
the remaining text. -/
def matchExact : List Char → List Char → Option (List Char)
  | [], s => some s
  | _ :: _, [] => none
  | k :: ks, c :: cs => if k = c then matchExact ks cs else none

/-- Consume up to and including the first '>' (the regex tail [^>]*>);
none when no '>' remains. -/
def skipToGt : List Char → Option (List Char)
  | [] => none
  | c :: cs => if c = '>' then some cs else skipToGt cs

/-- The regex tail [^>]+> : at least one non-'>' character, then
everything up to and including the first '>'. -/
def matchNonGtRun : List Char → Option (List Char)
  | [] => none
  | c :: cs => if c = '>' then none else skipToGt cs

/-- Case-insensitive alternation over literal tag names, tried in
pattern order. -/
def tryNames : List (List Char) → List Char → Option (List Char)
  | [], _ => none
  | nm :: nms, s =>
      match matchLiteral nm s with
      | some r => some r
      | none => tryNames nms s

/-- A tag pattern of the shape '<', optional '/', one of the given names
(case-insensitive), any run of non-'>' characters, '>'.  The optional '/'
needs no backtracking because no name starts with '/'. -/
def matchTag (names : List (List Char)) (s : List Char) :
    Option (List Char) :=
  match s with
  | '<' :: rest =>
      let rest2 := match rest with
        | '/' :: r => r
        | _ => rest
      match tryNames names rest2 with
      | some r => skipToGt r
      | none => none
  | _ => none

/-- The BOLD pattern (finite_dino_bot.py:22): an opening or closing b or
strong tag, case-insensitively. -/
def BOLD : List Char → Option (List Char) :=
  matchTag [['b'], 's' :: 't' :: 'r' :: 'o' :: 'n' :: 'g' :: []]

/-- The ITALICS pattern (finite_dino_bot.py:23): an opening or closing i
or em tag, case-insensitively. -/
def ITALICS : List Char → Option (List Char) :=
  matchTag [['i'], 'e' :: 'm' :: []]

/-- The HTML_TAGS pattern (finite_dino_bot.py:26): '<', optional '/', at
least one non-'>' character, '>'.  When the character after '/' is '>',
the regex engine backtracks and lets the '/' itself satisfy the
non-empty run. -/
def HTML_TAGS (s : List Char) : Option (List Char) :=
  match s with
  | '<' :: rest =>
      match rest with
      | '/' :: r =>
          match matchNonGtRun r with
          | some res => some res
          | none => matchNonGtRun rest
      | _ => matchNonGtRun rest
  | _ => none

/-- Lazy scan of [\s\S]*? up to the first position where the closing
matcher succeeds; returns the text after the closer. -/
def lazyUntil (close : List Char → Option (List Char)) :
    Nat → List Char → Option (List Char)
  | 0, s => close s
  | fuel + 1, s =>
      match close s with
      | some r => some r
      | none =>
          match s with
          | [] => none
          | _ :: cs => lazyUntil close fuel cs

/-- The CITATIONS pattern (finite_dino_bot.py:24): an opening bracket
(entity &#91; or literal [), lazily anything, then the first closing
bracket (entity &#93; or literal ]). -/
def CITATIONS (s : List Char) : Option (List Char) :=
  let close := fun t =>
    match matchExact ('&' :: '#' :: '9' :: '3' :: ';' :: []) t with
    | some r => some r
    | none => matchExact [']'] t
  match matchExact ('&' :: '#' :: '9' :: '1' :: ';' :: []) s with
  | some r => lazyUntil close r.length r
  | none =>
      match matchExact ['['] s with
      | some r => lazyUntil close r.length r
      | none => none

/-- The EXAMPLES pattern (finite_dino_bot.py:25): a <ul> element, lazily
up to the first </ul>, case-insensitively. -/
def EXAMPLES (s : List Char) : Option (List Char) :=
  match matchLiteral ('<' :: 'u' :: 'l' :: '>' :: []) s with
  | some r =>
      lazyUntil
        (matchLiteral ('<' :: '/' :: 'u' :: 'l' :: '>' :: [])) r.length r
  | none => none

/-- The re.sub / str.replace scan: left to right; where the matcher
matches, emit the replacement and continue after the match, else emit one
character and advance.  All matchers above consume at least one
character, so fuel = length of the text suffices. -/
def subScan (m : List Char → Option (List Char)) (repl : List Char) :
    Nat → List Char → List Char
  | 0, s => s
  | _ + 1, [] => []
  | fuel + 1, c :: cs =>
      match m (c :: cs) with
      | some rest => repl ++ subScan m repl fuel rest
      | none => c :: subScan m repl fuel cs

/-- re.sub: replace every non-overlapping leftmost match. -/
def reSub (m : List Char → Option (List Char)) (repl s : List Char) :
    List Char :=
  subScan m repl s.length s

/-- Python str.replace with a non-empty pattern. -/
def strReplace (pat repl s : List Char) : List Char :=
  subScan (matchExact pat) repl s.length s

/-- The lookup-result dict consumed by format_definition_reply:
definition, query_url, word_class, word (finite_dino_bot.py:71-76). -/
structure DefData where
  word : String
  word_class : String
  definition : String
  query_url : String
deriving DecidableEq

/-- The fixed footer appended to every reply (config.py FOOTER). -/
def FOOTER : String :=
  "\n\n---\n\n^(Request a definition using `!define <word>`.)   \n^^I ^^am ^^a ^^bot ^^made ^^by ^^[\\/u/ooknosi](https://reddit.com/user/ooknosi). ^^Beep ^^boop. ^^See ^^my ^^[code](https://github.com/ooknosi/finite_dino_bot).\n"

/-- format_definition_reply (finite_dino_bot.py:81-117).  The Python
function reassigns data[key] in place for each transformation step, so it
returns the reply string AND leaves the dict mutated; the pair returned
here is (reply, the dict as the call leaves it).  The steps, in source
order: bold and italics substitution on word, word_class and definition;
on definition only: drop example <ul> blocks, rewrite list and
description tags, drop citations; finally strip remaining html tags from
all three keys; then assemble the reply and append the footer. -/
def format_definition_reply (data : DefData) : String × DefData :=
  let w1 := reSub ITALICS ['_'] (reSub BOLD ['*', '*'] data.word.toList)
  let wc1 := reSub ITALICS ['_']
    (reSub BOLD ['*', '*'] data.word_class.toList)
  let d1 := reSub ITALICS ['_']
    (reSub BOLD ['*', '*'] data.definition.toList)
  let d2 := reSub EXAMPLES [] d1
  let d3 := strReplace ('<' :: 'l' :: 'i' :: '>' :: [])
    ('1' :: '.' :: ' ' :: []) d2
  let d4 := strReplace ('<' :: '/' :: 'l' :: 'i' :: '>' :: []) ['\n'] d3
  let d5 := strReplace ('<' :: 'd' :: 'd' :: '>' :: []) (' ' :: ' ' :: []) d4
  let d6 := strReplace ('<' :: '/' :: 'd' :: 'd' :: '>' :: []) ['\n'] d5
  let d7 := reSub CITATIONS [] d6
  let w2 := reSub HTML_TAGS [] w1
  let wc2 := reSub HTML_TAGS [] wc1
  let d8 := reSub HTML_TAGS [] d7
  let reply := "#### " ++ String.mk w2 ++ "\n"
    ++ "*" ++ String.mk wc2 ++ "*\n\n"
    ++ String.mk d8
    ++ "\n[^*Wiktionary*](" ++ data.query_url ++ ")"
    ++ FOOTER
  (reply, ⟨String.mk w2, String.mk wc2, String.mk d8, data.query_url⟩)

/-- Claim C9 counterexample: format_definition_reply DOES modify its
input.  On the concrete dict with word "<p><b>cat</b></p>", after the
call the dict's word field has been overwritten with "**cat**": the
returned dict differs from the input. -/
theorem format_reply_mutates_input :
    (format_definition_reply
        ⟨"<p><b>cat</b></p>", "Noun", "x", "u"⟩).2
      ≠ ⟨"<p><b>cat</b></p>", "Noun", "x", "u"⟩ := by
  decide

/-- Claim C9 (amended): format_definition_reply is deterministic and
depends only on the four fields of its input (equal inputs give equal
outputs), performs no network access and reads no mutable state, and
leaves query_url unchanged — but it does NOT leave its input unmodified:
the word, word_class and definition fields of the dict are overwritten in
place with the formatted values (markup converted, citation and example
substructures removed, remaining tags stripped), and the reply is the
assembly of those formatted fields with the fixed footer appended. -/
theorem format_reply_deterministic (d e : DefData)
    (hw : d.word = e.word) (hc : d.word_class = e.word_class)
    (hd : d.definition = e.definition) (hu : d.query_url = e.query_url) :
    format_definition_reply d = format_definition_reply e ∧
    (format_definition_reply d).2.query_url = d.query_url ∧
    (format_definition_reply d).2.word
      = String.mk (reSub HTML_TAGS []
          (reSub ITALICS ['_'] (reSub BOLD ['*', '*'] d.word.toList))) ∧
    (format_definition_reply d).1
      = "#### " ++ (format_definition_reply d).2.word ++ "\n"
        ++ "*" ++ (format_definition_reply d).2.word_class ++ "*\n\n"
        ++ (format_definition_reply d).2.definition
        ++ "\n[^*Wiktionary*](" ++ d.query_url ++ ")" ++ FOOTER := by
  obtain ⟨w, c, df, u⟩ := d
  obtain ⟨w2, c2, df2, u2⟩ := e
  simp only at hw hc hd hu
  subst hw hc hd hu
  exact ⟨rfl, rfl, rfl, rfl⟩

/-- Claim C9 witness: the determinism and mutation facts instantiated on
a concrete dict. -/
theorem format_reply_deterministic_witness :
    format_definition_reply ⟨"<b>w</b>", "Noun", "d", "u"⟩
        = format_definition_reply ⟨"<b>w</b>", "Noun", "d", "u"⟩ ∧
    (format_definition_reply ⟨"<b>w</b>", "Noun", "d", "u"⟩).2.query_url
        = "u" ∧
    (format_definition_reply ⟨"<b>w</b>", "Noun", "d", "u"⟩).2.word
      = String.mk (reSub HTML_TAGS [] (reSub ITALICS ['_']
          (reSub BOLD ['*', '*'] ("<b>w</b>" : String).toList))) ∧
    (format_definition_reply ⟨"<b>w</b>", "Noun", "d", "u"⟩).1
      = "#### "
        ++ (format_definition_reply ⟨"<b>w</b>", "Noun", "d", "u"⟩).2.word
        ++ "\n" ++ "*"
        ++ (format_definition_reply
            ⟨"<b>w</b>", "Noun", "d", "u"⟩).2.word_class
        ++ "*\n\n"
        ++ (format_definition_reply
            ⟨"<b>w</b>", "Noun", "d", "u"⟩).2.definition
        ++ "\n[^*Wiktionary*](" ++ "u" ++ ")" ++ FOOTER :=
  format_reply_deterministic ⟨"<b>w</b>", "Noun", "d", "u"⟩
    ⟨"<b>w</b>", "Noun", "d", "u"⟩ rfl rfl rfl rfl

/-- How one poll cycle of main ends (finite_dino_bot.py:124-135): falling
through normally to the one-second idle pause, entering the two-minute
rate-limit pause of the except APIException clause, or an exception
propagating out of main and terminating the process. -/
inductive CycleOutcome
  | normal
  | backoff
  | crash (e : Exc)
deriving DecidableEq

/-- What the urllib fetch plus page parse inside retrieve_definition
does for a given query: fail with an HTTPError, fail with some other
exception, or produce a page on which the definition span is present
(with its extracted fields) or absent. -/
inductive FetchOutcome
  | httpFail
  | fetchExDfn (e : Exc)
  | page (found : Option DefData)
deriving DecidableEq

/-- retrieve_definition (finite_dino_bot.py:31-79): an HTTPError from the
fetch is caught, reported, and None is returned; a page without the
definition span raises AttributeError inside the inner try, which is
caught and None is returned; any other exception propagates; otherwise
the extracted fields are returned. -/
def retrieve_definition (f : FetchOutcome) : Except Exc (Option DefData) :=
  match f with
  | .httpFail => .ok none
  | .fetchExDfn e => .error e
  | .page none => .ok none
  | .page (some d) => .ok (some d)

/-- One step of iterating the comment listing inside retrieve_comments:
the remote stream either produces the next comment or raises. -/
inductive ListEvent
  | item (c : RComment)
  | err (e : Exc)
deriving DecidableEq

/-- The state a poll cycle ends in: its outcome, the processed-comments
cache, and the submissions made (target comment id, reply text). -/
structure CycleResult where
  outcome : CycleOutcome
  cache : List String
  submits : List (String × String)
deriving DecidableEq

/-- main's exception policy (finite_dino_bot.py:132-134): the try around
the cycle body catches APIException only — the rate-limit backoff branch;
any other exception propagates out of main and the process dies. -/
def handleExc (e : Exc) (cache : List String)
    (submits : List (String × String)) : CycleResult :=
  if e = Exc.apiException then ⟨.backoff, cache, submits⟩
  else ⟨.crash e, cache, submits⟩


/-- The effect of one listing event on a cycle: either the cycle
continues with an updated cache and submission log, or it ends early with
the result main's except clause produces. -/
inductive StepRes
  | cont (cache : List String) (submits : List (String × String))
  | stop (r : CycleResult)
deriving DecidableEq

/-- Processing of one comment inside a cycle of main
(finite_dino_bot.py:126-131 with the generator body reddit_bot.py:116-125
inlined): the comment is filtered exactly as in retrieve_comments; on a
keyword match the id is appended to the cache and the query looked up
(retrieve_definition); a missing result skips the item; a found result is
formatted (format_definition_reply) and submitted (submit_comment); an
exception from lookup or submission ends the cycle through main's except
clause (handleExc).  fetch is the remote behaviour of the lookup per
query; submitBeh is the behaviour of target.reply per comment id. -/
def itemStep (n : Nat) (uname kw : String)
    (fetch : String → FetchOutcome) (submitBeh : String → Option Exc)
    (c : RComment) (cache : List String)
    (submits : List (String × String)) : StepRes :=
  if c.author ≠ uname ∧ c.id ∉ cache then
        match keywordSearch kw.toList (c.body.toList.map Char.toLower) with
        | some q =>
            match retrieve_definition (fetch (String.mk q)) with
            | .error e =>
                .stop (handleExc e (cacheAppend n cache c.id) submits)
            | .ok none => .cont (cacheAppend n cache c.id) submits
            | .ok (some d) =>
                match submit_comment uname c.author
                    (format_definition_reply d).1 (submitBeh c.id) with
                | .error e =>
                    .stop (handleExc e (cacheAppend n cache c.id) submits)
                | .ok (some r) =>
                    .cont (cacheAppend n cache c.id) (submits ++ [(c.id, r)])
                | .ok none => .cont (cacheAppend n cache c.id) submits
        | none => .cont cache submits
  else .cont cache submits

/-- Dispatch of one listing event: a raise from the listing stops the
cycle through main's except clause; a comment goes through itemStep. -/
def cycleStep (n : Nat) (uname kw : String)
    (fetch : String → FetchOutcome) (submitBeh : String → Option Exc)
    (ev : ListEvent) (cache : List String)
    (submits : List (String × String)) : StepRes :=
  match ev with
  | .err e => .stop (handleExc e cache submits)
  | .item c => itemStep n uname kw fetch submitBeh c cache submits

/-- One poll cycle of main (finite_dino_bot.py:124-135): fold cycleStep
over the listing events; an exhausted listing ends the cycle normally
(falling through to the one-second idle pause). -/
def runCycle (n : Nat) (uname kw : String)
    (fetch : String → FetchOutcome) (submitBeh : String → Option Exc) :
    List ListEvent → List String → List (String × String) → CycleResult
  | [], cache, submits => ⟨.normal, cache, submits⟩
  | ev :: rest, cache, submits =>
      match cycleStep n uname kw fetch submitBeh ev cache submits with
      | .cont cache2 submits2 =>
          runCycle n uname kw fetch submitBeh rest cache2 submits2
      | .stop r => r

theorem handleExc_outcome_ne_normal (e : Exc) (cache : List String)
    (submits : List (String × String)) :
    (handleExc e cache submits).outcome ≠ CycleOutcome.normal := by
  unfold handleExc
  split <;> simp

theorem itemStep_stop_ne_normal (n : Nat) (uname kw : String)
    (fetch : String → FetchOutcome) (submitBeh : String → Option Exc)
    (c : RComment) (cache : List String)
    (submits : List (String × String)) (r : CycleResult)
    (hstop : itemStep n uname kw fetch submitBeh c cache submits
        = StepRes.stop r) : r.outcome ≠ CycleOutcome.normal := by
  unfold itemStep at hstop
  split at hstop
  · split at hstop
    · split at hstop
      · cases hstop
        exact handleExc_outcome_ne_normal _ _ _
      · cases hstop
      · split at hstop
        · cases hstop
          exact handleExc_outcome_ne_normal _ _ _
        · cases hstop
        · cases hstop
    · cases hstop
  · cases hstop

theorem cycleStep_stop_ne_normal (n : Nat) (uname kw : String)
    (fetch : String → FetchOutcome) (submitBeh : String → Option Exc)
    (ev : ListEvent) (cache : List String)
    (submits : List (String × String)) (r : CycleResult)
    (hstop : cycleStep n uname kw fetch submitBeh ev cache submits
        = StepRes.stop r) : r.outcome ≠ CycleOutcome.normal := by
  cases ev with
  | err e =>
      have h2 : StepRes.stop (handleExc e cache submits) = StepRes.stop r :=
        hstop
      cases h2
      exact handleExc_outcome_ne_normal _ _ _
  | item c =>
      exact itemStep_stop_ne_normal n uname kw fetch submitBeh c cache
        submits r hstop

theorem runCycle_append (n : Nat) (uname kw : String)
    (fetch : String → FetchOutcome) (submitBeh : String → Option Exc)
    (evs : List ListEvent) :
    ∀ (pre : List ListEvent) (cache : List String)
      (submits : List (String × String)),
      (runCycle n uname kw fetch submitBeh pre cache submits).outcome
          = CycleOutcome.normal →
      runCycle n uname kw fetch submitBeh (pre ++ evs) cache submits
        = runCycle n uname kw fetch submitBeh evs
            (runCycle n uname kw fetch submitBeh pre cache submits).cache
            (runCycle n uname kw fetch submitBeh pre cache
              submits).submits := by
  intro pre
  induction pre with
  | nil => intro cache submits _; rfl
  | cons ev pre ih =>
      intro cache submits hnorm
      rw [List.cons_append]
      cases hstep : cycleStep n uname kw fetch submitBeh ev cache submits
        with
      | cont cache2 submits2 =>
          have hL : runCycle n uname kw fetch submitBeh
              (ev :: (pre ++ evs)) cache submits
              = runCycle n uname kw fetch submitBeh (pre ++ evs)
                  cache2 submits2 := by
            rw [runCycle, hstep]
          have hP : runCycle n uname kw fetch submitBeh (ev :: pre)
              cache submits
              = runCycle n uname kw fetch submitBeh pre cache2 submits2 := by
            rw [runCycle, hstep]
          rw [hP] at hnorm
          rw [hL, hP]
          exact ih cache2 submits2 hnorm
      | stop r =>
          have hP : runCycle n uname kw fetch submitBeh (ev :: pre)
              cache submits = r := by
            rw [runCycle, hstep]
          rw [hP] at hnorm
          exact absurd hnorm (cycleStep_stop_ne_normal n uname kw fetch
            submitBeh ev cache submits r hstep)

theorem runCycle_err_head (n : Nat) (uname kw : String)
    (fetch : String → FetchOutcome) (submitBeh : String → Option Exc)
    (e : Exc) (rest : List ListEvent) (cache : List String)
    (submits : List (String × String)) :
    runCycle n uname kw fetch submitBeh (ListEvent.err e :: rest) cache
      submits = handleExc e cache submits := by
  rw [runCycle]
  rfl

/-- Claim C5 counterexample: an AttributeError raised during comment
listing is not caught by the main loop (which catches only APIException)
and terminates the process, refuting the claim that every remote error
other than a rate limit is caught and the loop continues. -/
theorem nonratelimit_error_crashes :
    runCycle 2 "bot" "!define" (fun _ => FetchOutcome.page none)
        (fun _ => none) [ListEvent.err Exc.attributeError] [] []
      = ⟨CycleOutcome.crash Exc.attributeError, [], []⟩ := by
  decide

/-- Claim C5 (amended): the main loop's try clause catches ONLY
APIException, the rate-limit signal, which yields the backoff branch;
every other exception raised during listing or during an item's
lookup/submit processing propagates out of main and terminates the
process (a crash outcome) — the only remote failure handled locally is
an HTTPError inside retrieve_definition, reported and turned into a None
result.  Only authentication exhaustion is a deliberate abnormal
termination (RuntimeError in authenticate); other errors also kill the
process, contrary to the claim. -/
theorem remote_error_policy (n : Nat) (uname kw : String)
    (fetch : String → FetchOutcome) (submitBeh : String → Option Exc)
    (rest : List ListEvent) (cache : List String)
    (submits : List (String × String)) (e : Exc) (c : RComment)
    (q : List Char) (hne : e ≠ Exc.apiException)
    (hauth : c.author ≠ uname) (hid : c.id ∉ cache)
    (hq : keywordSearch kw.toList (c.body.toList.map Char.toLower) = some q)
    (hfe : fetch (String.mk q) = FetchOutcome.fetchExDfn e) :
    runCycle n uname kw fetch submitBeh (ListEvent.err e :: rest) cache
        submits = ⟨CycleOutcome.crash e, cache, submits⟩ ∧
    runCycle n uname kw fetch submitBeh
        (ListEvent.err Exc.apiException :: rest) cache submits
        = ⟨CycleOutcome.backoff, cache, submits⟩ ∧
    retrieve_definition FetchOutcome.httpFail = Except.ok none ∧
    runCycle n uname kw fetch submitBeh (ListEvent.item c :: rest) cache
        submits
      = ⟨CycleOutcome.crash e, cacheAppend n cache c.id, submits⟩ := by
  refine ⟨?_, ?_, rfl, ?_⟩
  · rw [runCycle_err_head]
    unfold handleExc
    rw [if_neg hne]
  · rw [runCycle_err_head]
    unfold handleExc
    rw [if_pos rfl]
  · have hstep : cycleStep n uname kw fetch submitBeh (ListEvent.item c)
        cache submits
        = StepRes.stop (handleExc e (cacheAppend n cache c.id) submits) := by
      show itemStep n uname kw fetch submitBeh c cache submits = _
      unfold itemStep
      rw [if_pos ⟨hauth, hid⟩]
      simp only [hq, hfe, retrieve_definition]
    rw [runCycle, hstep]
    unfold handleExc
    rw [if_neg hne]

/-- Claim C5 witness: the policy instantiated on concrete data — an
AttributeError on the listing crashes, an APIException backs off, and an
URLError-like failure during one item's lookup crashes. -/
theorem remote_error_policy_witness :
    runCycle 2 "bot" "!define"
        (fun _ => FetchOutcome.fetchExDfn Exc.otherError) (fun _ => none)
        [ListEvent.err Exc.otherError] [] []
      = ⟨CycleOutcome.crash Exc.otherError, [], []⟩ ∧
    runCycle 2 "bot" "!define"
        (fun _ => FetchOutcome.fetchExDfn Exc.otherError) (fun _ => none)
        [ListEvent.err Exc.apiException] [] []
      = ⟨CycleOutcome.backoff, [], []⟩ ∧
    retrieve_definition FetchOutcome.httpFail = Except.ok none ∧
    runCycle 2 "bot" "!define"
        (fun _ => FetchOutcome.fetchExDfn Exc.otherError) (fun _ => none)
        [ListEvent.item ⟨"c5", "alice", "!define cat"⟩] [] []
      = ⟨CycleOutcome.crash Exc.otherError,
          cacheAppend 2 [] "c5", []⟩ :=
  remote_error_policy 2 "bot" "!define"
    (fun _ => FetchOutcome.fetchExDfn Exc.otherError) (fun _ => none)
    [] [] [] Exc.otherError ⟨"c5", "alice", "!define cat"⟩
    ('c' :: 'a' :: 't' :: []) (by decide) (by decide) (by decide)
    (by decide) rfl

/-- Claim C6: a rate-limit APIException during listing or during
submission sends the cycle into the backoff branch (the two-minute pause
of main's except clause, after which the loop resumes polling) instead of
crashing, and no id already admitted to the processed-comments cache is
lost: after a listing rate limit the cache and submission log are exactly
those accumulated before the error, and after a submission rate limit the
failing item's id is already in the cache. -/
theorem rate_limit_backoff (n : Nat) (uname kw : String)
    (fetch : String → FetchOutcome) (submitBeh : String → Option Exc)
    (pre rest : List ListEvent) (cache : List String)
    (submits : List (String × String)) (c : RComment) (q : List Char)
    (d : DefData) (hn : 0 < n)
    (hpre : (runCycle n uname kw fetch submitBeh pre cache submits).outcome
        = CycleOutcome.normal)
    (hauth : c.author ≠ uname) (hid : c.id ∉ cache)
    (hq : keywordSearch kw.toList (c.body.toList.map Char.toLower) = some q)
    (hf : fetch (String.mk q) = FetchOutcome.page (some d))
    (hs : submitBeh c.id = some Exc.apiException) :
    runCycle n uname kw fetch submitBeh
        (pre ++ ListEvent.err Exc.apiException :: rest) cache submits
      = ⟨CycleOutcome.backoff,
          (runCycle n uname kw fetch submitBeh pre cache submits).cache,
          (runCycle n uname kw fetch submitBeh pre cache
            submits).submits⟩ ∧
    runCycle n uname kw fetch submitBeh [ListEvent.item c] cache submits
      = ⟨CycleOutcome.backoff, cacheAppend n cache c.id, submits⟩ ∧
    c.id ∈ cacheAppend n cache c.id := by
  refine ⟨?_, ?_, mem_cacheAppend_self n hn cache c.id⟩
  · rw [runCycle_append n uname kw fetch submitBeh _ pre cache submits hpre]
    rw [runCycle_err_head]
    unfold handleExc
    rw [if_pos rfl]
  · have hstep : cycleStep n uname kw fetch submitBeh (ListEvent.item c)
        cache submits
        = StepRes.stop (handleExc Exc.apiException
            (cacheAppend n cache c.id) submits) := by
      show itemStep n uname kw fetch submitBeh c cache submits = _
      unfold itemStep
      rw [if_pos ⟨hauth, hid⟩]
      simp only [hq, hf, hs, retrieve_definition]
      unfold submit_comment
      rw [if_pos hauth]
    rw [runCycle, hstep]
    unfold handleExc
    rw [if_pos rfl]

/-- Claim C6 witness: with capacity 2 and a fresh comment "c6", a listing
rate limit after an empty prefix backs off with nothing lost, and a
submission rate limit on "c6" backs off with "c6" already cached. -/
theorem rate_limit_backoff_witness :
    runCycle 2 "bot" "!define"
        (fun _ => FetchOutcome.page (some ⟨"w", "Noun", "d", "u"⟩))
        (fun _ => some Exc.apiException)
        ([] ++ ListEvent.err Exc.apiException :: []) [] []
      = ⟨CycleOutcome.backoff,
          (runCycle 2 "bot" "!define"
            (fun _ => FetchOutcome.page (some ⟨"w", "Noun", "d", "u"⟩))
            (fun _ => some Exc.apiException) [] [] []).cache,
          (runCycle 2 "bot" "!define"
            (fun _ => FetchOutcome.page (some ⟨"w", "Noun", "d", "u"⟩))
            (fun _ => some Exc.apiException) [] [] []).submits⟩ ∧
    runCycle 2 "bot" "!define"
        (fun _ => FetchOutcome.page (some ⟨"w", "Noun", "d", "u"⟩))
        (fun _ => some Exc.apiException)
        [ListEvent.item ⟨"c6", "alice", "!define cat"⟩] [] []
      = ⟨CycleOutcome.backoff, cacheAppend 2 [] "c6", []⟩ ∧
    ("c6" : String) ∈ cacheAppend 2 [] "c6" :=
  rate_limit_backoff 2 "bot" "!define"
    (fun _ => FetchOutcome.page (some ⟨"w", "Noun", "d", "u"⟩))
    (fun _ => some Exc.apiException) [] [] [] []
    ⟨"c6", "alice", "!define cat"⟩ ('c' :: 'a' :: 't' :: [])
    ⟨"w", "Noun", "d", "u"⟩ (by decide) rfl (by decide) (by decide)
    (by decide) rfl rfl

/-- Claim C7: an absent lookup result — retrieve_definition returning
None, whether because the HTTP fetch failed with a not-found HTTPError or
because the fetched page has no definition section — causes no reply to
be formatted and no submission call for that item, and is not treated as
an error: the cycle simply continues with the next item, with the item's
id admitted and the submission log unchanged. -/
theorem notfound_no_reply (n : Nat) (uname kw : String)
    (fetch : String → FetchOutcome) (submitBeh : String → Option Exc)
    (rest : List ListEvent) (cache : List String)
    (submits : List (String × String)) (c : RComment) (q : List Char)
    (hauth : c.author ≠ uname) (hid : c.id ∉ cache)
    (hq : keywordSearch kw.toList (c.body.toList.map Char.toLower) = some q)
    (hf : retrieve_definition (fetch (String.mk q)) = Except.ok none) :
    retrieve_definition FetchOutcome.httpFail = Except.ok none ∧
    retrieve_definition (FetchOutcome.page none) = Except.ok none ∧
    cycleStep n uname kw fetch submitBeh (ListEvent.item c) cache submits
      = StepRes.cont (cacheAppend n cache c.id) submits ∧
    runCycle n uname kw fetch submitBeh (ListEvent.item c :: rest) cache
        submits
      = runCycle n uname kw fetch submitBeh rest
          (cacheAppend n cache c.id) submits := by
  have hstep : cycleStep n uname kw fetch submitBeh (ListEvent.item c)
      cache submits
      = StepRes.cont (cacheAppend n cache c.id) submits := by
    show itemStep n uname kw fetch submitBeh c cache submits = _
    unfold itemStep
    rw [if_pos ⟨hauth, hid⟩]
    simp only [hq, hf]
  refine ⟨rfl, rfl, hstep, ?_⟩
  rw [runCycle, hstep]

/-- Claim C7 witness: a NotFound lookup for the query "zzqx" — the fetch
returns an HTTPError — produces no submission: the one-item cycle ends
normally with the id cached and an empty submission log. -/
theorem notfound_no_reply_witness :
    retrieve_definition FetchOutcome.httpFail = Except.ok none ∧
    retrieve_definition (FetchOutcome.page none) = Except.ok none ∧
    cycleStep 2 "bot" "!define" (fun _ => FetchOutcome.httpFail)
        (fun _ => none) (ListEvent.item ⟨"c7", "alice", "!define zzqx"⟩)
        [] []
      = StepRes.cont (cacheAppend 2 [] "c7") [] ∧
    runCycle 2 "bot" "!define" (fun _ => FetchOutcome.httpFail)
        (fun _ => none)
        (ListEvent.item ⟨"c7", "alice", "!define zzqx"⟩ :: []) [] []
      = runCycle 2 "bot" "!define" (fun _ => FetchOutcome.httpFail)
          (fun _ => none) [] (cacheAppend 2 [] "c7") [] :=
  notfound_no_reply 2 "bot" "!define" (fun _ => FetchOutcome.httpFail)
    (fun _ => none) [] [] [] ⟨"c7", "alice", "!define zzqx"⟩
    ('z' :: 'z' :: 'q' :: 'x' :: []) (by decide) (by decide) (by decide)
    rfl
